import Mathlib

/-!
# Verification of the Cybertoolkit banner-fingerprinting core

A shallow embedding of the network probing / banner-fingerprinting engine of
the Cybertoolkit repository (`tools/bannerhunter.py` and the BFS crawl loop of
`tools/crawleye.py`), together with proofs of the behavioural properties the
specification states about it.

Network effects (TCP connect, socket reads, DNS answers, HTTP fetches) are
modelled as explicit oracle parameters: the embedded functions are the exact
deterministic control flow of the Python code over those oracle outcomes.
Received bytes are represented by their `errors="replace"`-decoded text (that
decoding is total and preserves emptiness, which is all the code observes).
-/

namespace Cybertoolkit

/-! ## Constants (`tools/bannerhunter.py`, lines 9-12) -/

def DEFAULT_PORTS : List Int := [21, 22, 23, 25, 80, 110, 143, 443, 3306, 5432]

def MAX_PORTS : Nat := 20

/-! ## Python `str.strip`

`str.strip()` with no argument removes leading and trailing whitespace.  We
model the ASCII whitespace characters Python strips. -/

def pyIsSpace (c : Char) : Bool :=
  c = ' ' || c = '\t' || c = '\n' || c = '\x0d' || c = '\x0b' || c = '\x0c'

def pyStripL (l : List Char) : List Char :=
  (l.dropWhile pyIsSpace).reverse.dropWhile pyIsSpace |>.reverse

def pyStrip (s : String) : String :=
  String.mk (pyStripL s.toList)

/-! ## Port sanitisation (`_sanitize_ports`, lines 27-40)

Raw port values arrive from the presentation layer with arbitrary runtime
types; each element is modelled by the outcome of Python's `int(p)`
conversion: `some i` when the conversion succeeds with value `i`, `none` when
it raises (the `except: continue` path).  The `Option` on the whole list is
Python's `Optional[List]`; `none` and `some []` are both falsy for
`if not port_list`. -/

def cleanLoop : List (Option Int) → List Int → List Int
  | [], cleaned => cleaned
  | p :: rest, cleaned =>
    match p with
    | none => cleanLoop rest cleaned
    | some pi =>
      let cleaned' := if 1 ≤ pi ∧ pi ≤ 65535 then cleaned ++ [pi] else cleaned
      if MAX_PORTS ≤ cleaned'.length then cleaned' else cleanLoop rest cleaned'

def sanitize_ports (port_list : Option (List (Option Int))) : List Int :=
  match port_list with
  | none => DEFAULT_PORTS
  | some [] => DEFAULT_PORTS
  | some l =>
    let cleaned := cleanLoop l []
    if cleaned = [] then DEFAULT_PORTS else cleaned

/-! ## Semantic version comparison

`_fingerprint` compares versions with `packaging.version.parse`.  On the
strings that reach it (digits and dots only, by normalisation), `parse`
succeeds exactly on `N(.N)*` release strings and orders them by their release
tuples, shorter tuples padded with zeros; on any other string it raises
`InvalidVersion`, which the code catches (risk `"unknown"`). -/

def isDigitChar (c : Char) : Bool := '0' ≤ c ∧ c ≤ '9'

def digitVal (c : Char) : Nat := c.toNat - '0'.toNat

def decVal (l : List Char) : Nat :=
  l.foldl (fun acc c => 10 * acc + digitVal c) 0

/-- Split a character list on `'.'`. -/
def splitDots : List Char → List (List Char)
  | [] => [[]]
  | c :: rest =>
    let r := splitDots rest
    if c = '.' then [] :: r
    else
      match r with
      | [] => [[c]]
      | h :: t => (c :: h) :: t

/-- The release tuple of `packaging.version.parse`, restricted to plain
release strings: every dot-separated chunk must be a non-empty run of
digits; otherwise parsing raises (`none`). -/
def parseVer (l : List Char) : Option (List Nat) :=
  let chunks := splitDots l
  if chunks.all (fun ch => ch ≠ [] ∧ ch.all isDigitChar) then
    some (chunks.map decVal)
  else none

/-- Segment-wise comparison of release tuples, missing segments reading as
zero: the order `packaging.version` induces on plain releases. -/
def segCmp : List Nat → List Nat → Ordering
  | [], ys => if ys.all (fun y => y = 0) then Ordering.eq else Ordering.lt
  | x :: xs, [] => if x = 0 then segCmp xs [] else Ordering.gt
  | x :: xs, y :: ys =>
    if x < y then Ordering.lt
    else if y < x then Ordering.gt
    else segCmp xs ys

/-- The risk classification of `_fingerprint` (lines 131-141): compare the
normalised version against the rule's threshold; `version <= threshold` is
`"potentially_outdated"`, otherwise `"ok"`; a parse failure on either side or
a missing threshold is `"unknown"`. -/
def riskOf (verNorm : List Char) (threshold : Option (List Char)) : String :=
  match threshold with
  | none => "unknown"
  | some t =>
    match parseVer verNorm, parseVer t with
    | some v, some tv =>
      if segCmp v tv ≠ Ordering.gt then "potentially_outdated" else "ok"
    | _, _ => "unknown"

/-! ## The regular expressions of `FINGERPRINTS` (lines 14-24)

A small backtracking matcher covering exactly the constructs the nine
fingerprint patterns use: literals (optionally case-insensitive, for `re.I`),
single-character classes, greedy `?`, greedy `*`/`+` over a class, lazy `.*?`
(`.` does not match a newline), concatenation and one capture group.
`mats` lists the possible outcomes of matching a regex against a prefix of
the input in Python's backtracking priority order (an outcome is the
remaining suffix plus the group-1 capture, if the group participated);
`searchAt` is `re.search`: leftmost start position first, and at each
position the highest-priority outcome. -/

inductive CClass where
  | digit
  | ws
  | chars (cs : List Char)
  | dotNoNL
deriving Repr, DecidableEq

def CClass.matches : CClass → Char → Bool
  | CClass.digit, c => isDigitChar c
  | CClass.ws, c => pyIsSpace c
  | CClass.chars cs, c => cs.contains c
  | CClass.dotNoNL, c => c ≠ '\n'

inductive Re where
  | eps
  | cls (cc : CClass)
  | lit (s : List Char) (ci : Bool)
  | cat (a b : Re)
  | opt (a : Re)
  | starCls (cc : CClass)
  | plusCls (cc : CClass)
  | lazyStarCls (cc : CClass)
  | grp (a : Re)
deriving Repr

def charEqCI (ci : Bool) (a b : Char) : Bool :=
  if ci then a.toLower = b.toLower else a = b

/-- Match a literal string prefix, returning the remaining suffix. -/
def stripLit (ci : Bool) : List Char → List Char → Option (List Char)
  | [], s => some s
  | _ :: _, [] => none
  | p :: ps, c :: cs => if charEqCI ci p c then stripLit ci ps cs else none

/-- Suffixes left after consuming a maximal run of class characters, longest
first (greedy backtracking order). -/
def greedyRests (cc : CClass) : List Char → List (List Char)
  | [] => [[]]
  | c :: rest =>
    if cc.matches c then greedyRests cc rest ++ [c :: rest]
    else [c :: rest]

/-- Same suffixes, shortest first (lazy order). -/
def lazyRests (cc : CClass) : List Char → List (List Char)
  | [] => [[]]
  | c :: rest =>
    if cc.matches c then (c :: rest) :: lazyRests cc rest
    else [c :: rest]

def capJoin (a b : Option (List Char)) : Option (List Char) :=
  match a with
  | some x => some x
  | none => b

/-- All outcomes of matching `r` against a prefix of `s`, in backtracking
priority order.  An outcome is `(remaining suffix, group-1 capture)`. -/
def mats : Re → List Char → List (List Char × Option (List Char))
  | Re.eps, s => [(s, none)]
  | Re.cls cc, s =>
    match s with
    | [] => []
    | c :: rest => if cc.matches c then [(rest, none)] else []
  | Re.lit p ci, s =>
    match stripLit ci p s with
    | some rest => [(rest, none)]
    | none => []
  | Re.cat a b, s =>
    (mats a s).flatMap (fun o1 =>
      (mats b o1.1).map (fun o2 => (o2.1, capJoin o1.2 o2.2)))
  | Re.opt a, s => mats a s ++ [(s, none)]
  | Re.starCls cc, s => (greedyRests cc s).map (fun r => (r, none))
  | Re.plusCls cc, s =>
    match s with
    | [] => []
    | c :: rest =>
      if cc.matches c then (greedyRests cc rest).map (fun r => (r, none))
      else []
  | Re.lazyStarCls cc, s => (lazyRests cc s).map (fun r => (r, none))
  | Re.grp a, s =>
    (mats a s).map (fun o => (o.1, some (s.take (s.length - o.1.length))))

/-- `re.search`: try each start position from the left; at the first position
with an outcome, return its group-1 capture. -/
def searchAt (r : Re) : List Char → Option (Option (List Char))
  | [] =>
    match mats r [] with
    | o :: _ => some o.2
    | [] => none
  | c :: rest =>
    match mats r (c :: rest) with
    | o :: _ => some o.2
    | [] => searchAt r rest

/-- Regex-AST shorthand for the version group bodies. -/
def reSeq : List Re → Re
  | [] => Re.eps
  | [r] => r
  | r :: rest => Re.cat r (reSeq rest)

def dPlus : Re := Re.plusCls CClass.digit

def dotLit : Re := Re.cls (CClass.chars ['.'])

/-- `[0-9]+\.[0-9]+` -/
def verTwo : Re := reSeq [dPlus, dotLit, dPlus]

/-- `[0-9]+\.[0-9]+(?:\.[0-9]+)?` -/
def verTwoThree : Re := reSeq [dPlus, dotLit, dPlus, Re.opt (Re.cat dotLit dPlus)]

def litS (s : String) : Re := Re.lit s.toList false

def litCI (s : String) : Re := Re.lit s.toList true

/-! ## Fingerprint rules (`FINGERPRINTS`, lines 14-24) -/

structure Rule where
  patt : Re
  product : String
  verGroup : Nat
  threshold : Option String

def FINGERPRINTS : List Rule :=
  [ -- Apache/?\s*([0-9]+\.[0-9]+\.[0-9]+)
    ⟨reSeq [litS "Apache", Re.opt (Re.cls (CClass.chars ['/'])), Re.starCls CClass.ws,
       Re.grp (reSeq [dPlus, dotLit, dPlus, dotLit, dPlus])],
     "Apache HTTPD", 1, some "2.4.49"⟩,
    -- nginx/?\s*([0-9]+\.[0-9]+(?:\.[0-9]+)?)
    ⟨reSeq [litS "nginx", Re.opt (Re.cls (CClass.chars ['/'])), Re.starCls CClass.ws,
       Re.grp verTwoThree],
     "nginx", 1, some "1.19.0"⟩,
    -- OpenSSH[_-]?([0-9]+\.[0-9]+(?:p[0-9]+)?)
    ⟨reSeq [litS "OpenSSH", Re.opt (Re.cls (CClass.chars ['_', '-'])),
       Re.grp (reSeq [dPlus, dotLit, dPlus,
         Re.opt (Re.cat (Re.cls (CClass.chars ['p'])) dPlus)])],
     "OpenSSH", 1, some "7.6"⟩,
    -- vsftpd/?\s*([0-9]+\.[0-9]+(?:\.[0-9]+)?)
    ⟨reSeq [litS "vsftpd", Re.opt (Re.cls (CClass.chars ['/'])), Re.starCls CClass.ws,
       Re.grp verTwoThree],
     "vsftpd", 1, some "3.0.3"⟩,
    -- Exim\s+([0-9]+\.[0-9]+)
    ⟨reSeq [litS "Exim", Re.plusCls CClass.ws, Re.grp verTwo],
     "Exim", 1, some "4.92"⟩,
    -- Microsoft-IIS/?\s*([0-9]+\.[0-9]+)
    ⟨reSeq [litS "Microsoft-IIS", Re.opt (Re.cls (CClass.chars ['/'])),
       Re.starCls CClass.ws, Re.grp verTwo],
     "Microsoft IIS", 1, none⟩,
    -- Apache-Coyote/([0-9]+\.[0-9]+)
    ⟨reSeq [litS "Apache-Coyote", Re.cls (CClass.chars ['/']), Re.grp verTwo],
     "Apache Tomcat (Coyote)", 1, none⟩,
    -- mysql.*?Ver\s*([0-9]+\.[0-9]+(?:\.[0-9]+)?), re.I
    ⟨reSeq [litCI "mysql", Re.lazyStarCls CClass.dotNoNL, litCI "Ver",
       Re.starCls CClass.ws, Re.grp verTwoThree],
     "MySQL", 1, some "5.7"⟩,
    -- PostgreSQL.*?([0-9]+\.[0-9]+(?:\.[0-9]+)?), re.I
    ⟨reSeq [litCI "PostgreSQL", Re.lazyStarCls CClass.dotNoNL, Re.grp verTwoThree],
     "PostgreSQL", 1, some "9.6"⟩ ]

/-! ## `_fingerprint` (lines 117-145) -/

/-- `re.sub(r"[^0-9\.]", "", version_raw)` -/
def normalizeVer (l : List Char) : List Char :=
  l.filter (fun c => isDigitChar c || c = '.')

/-- Lines 129-144: what `_fingerprint` returns once rule `r` has matched with
group-1 capture `cap` (`m.group(ver_group)` with `ver_group = 1`; `None` and
the empty string are both falsy for `if version_raw:`). -/
def applyRule (r : Rule) (cap : Option (List Char)) :
    Option String × Option String × String :=
  match cap with
  | some v =>
    if v ≠ [] then
      let vn := normalizeVer v
      (some r.product, some (String.mk vn), riskOf vn (r.threshold.map String.toList))
    else (some r.product, none, "unknown")
  | none => (some r.product, none, "unknown")

def fingerprintGo : List Rule → List Char → Option String × Option String × String
  | [], _ => (none, none, "unknown")
  | r :: rest, bc =>
    match searchAt r.patt bc with
    | some cap => applyRule r cap
    | none => fingerprintGo rest bc

/-- `BannerHunter._fingerprint`: strip the banner, evaluate the ordered rule
list, return the first match's `(product, normalised version, risk)`, or
`(none, none, "unknown")` when no rule matches. -/
def fingerprint (banner : String) : Option String × Option String × String :=
  fingerprintGo FINGERPRINTS (pyStripL banner.toList)

/-! ## Banner grabbing (`grab_banner`, lines 76-115)

One probe's network behaviour is an oracle: the outcome of `s.connect`
(`Except.error e` meaning an exception whose `str` is `e`), and the outcomes
of the two bounded `recv` calls.  A `recv` outcome is the decoded
(`errors="replace"`, hence total) text of the received bytes; an exception or
timeout on a `recv` is `Except.error` and is collapsed to `b""` by the code.
The `_gentle_probe` send (lines 65-74) swallows its own exceptions and has no
observable effect beyond what the second `recv` outcome already carries. -/

structure ProbeEnv where
  connect : Except String Unit
  recv1 : Except String String
  recv2 : Except String String

structure BannerResult where
  ip : String
  port : Int
  success : Bool
  raw : String
  product : Option String
  version : Option String
  risk : String
  error : Option String
deriving DecidableEq, Repr

def grab_banner (ip : String) (port : Int) (env : ProbeEnv) : BannerResult :=
  let res : BannerResult :=
    ⟨ip, port, false, "", none, none, "unknown", none⟩
  match env.connect with
  | Except.error e => { res with error := some e }
  | Except.ok _ =>
    let data1 := match env.recv1 with | Except.ok d => d | Except.error _ => ""
    let data :=
      if data1 = "" then
        match env.recv2 with | Except.ok d => d | Except.error _ => ""
      else data1
    let raw := if data = "" then "" else pyStrip data
    if raw ≠ "" then
      let fp := fingerprint raw
      { res with success := true, raw := raw,
                 product := fp.1, version := fp.2.1, risk := fp.2.2 }
    else
      { res with success := true, raw := raw }

/-! ## `_looks_like_ip` (lines 49-54)

`socket.inet_aton` on Linux is glibc's `inet_aton`: numbers-and-dots
notation.  Each part starts with a digit and is read by `strtoul` with base 0
(`0x` hex, leading `0` octal, otherwise decimal); at most four parts; every
part before the last must fit a byte; the last must fit the remaining bytes;
the character after the number must be the end of the string or an ASCII
whitespace character. -/

def hexDigitVal (c : Char) : Option Nat :=
  if isDigitChar c then some (digitVal c)
  else if 'a' ≤ c ∧ c ≤ 'f' then some (c.toNat - 'a'.toNat + 10)
  else if 'A' ≤ c ∧ c ≤ 'F' then some (c.toNat - 'A'.toNat + 10)
  else none

def decDigitVal (c : Char) : Option Nat :=
  if isDigitChar c then some (digitVal c) else none

def octDigitVal (c : Char) : Option Nat :=
  if '0' ≤ c ∧ c ≤ '7' then some (digitVal c) else none

/-- Accumulate digits of the given base; stop at the first non-digit. -/
def takeNum (base : Nat) (dv : Char → Option Nat) : List Char → Nat → Nat × List Char
  | [], acc => (acc, [])
  | c :: rest, acc =>
    match dv c with
    | some d => takeNum base dv rest (base * acc + d)
    | none => (acc, c :: rest)

/-- `strtoul(cp, &end, 0)` on input known to start with a digit: value and
unconsumed suffix.  A bare `"0x"` with no hex digit parses as `0` leaving the
`x`. -/
def parseCNum : List Char → Nat × List Char
  | '0' :: c :: rest =>
    if c = 'x' ∨ c = 'X' then
      match rest with
      | r :: _ =>
        if (hexDigitVal r).isSome then takeNum 16 hexDigitVal rest 0
        else (0, c :: rest)
      | [] => (0, c :: rest)
    else takeNum 8 octDigitVal (c :: rest) 0
  | l => takeNum 10 decDigitVal l 0

/-- Bound on the last part, by how many parts may still be filled. -/
def lastPartMax : Nat → Nat
  | 4 => 0xffffffff
  | 3 => 0xffffff
  | 2 => 0xffff
  | _ => 0xff

/-- The main loop of glibc `inet_aton_end`; `partsLeft` counts the parts
still available including the current one (starts at 4). -/
def atonGo : Nat → List Char → Bool
  | _, [] => false
  | 0, _ => false
  | partsLeft + 1, c :: rest =>
    if ¬ isDigitChar c then false
    else
      let pr := parseCNum (c :: rest)
      if 0xffffffff < pr.1 then false
      else
        match pr.2 with
        | '.' :: after =>
          if partsLeft = 0 ∨ 0xff < pr.1 then false
          else atonGo partsLeft after
        | rest' =>
          let trailingOk :=
            match rest' with
            | [] => true
            | ch :: _ => decide (ch.toNat < 128) && pyIsSpace ch
          trailingOk && pr.1 ≤ lastPartMax (partsLeft + 1)

def inet_aton (l : List Char) : Bool := atonGo 4 l

def looks_like_ip (s : String) : Bool := inet_aton s.toList

/-! ## `resolve` (lines 56-63)

The `socket.gethostbyname_ex` answer is an oracle: `(hostname, aliases,
ips)` on success, the exception's `str` on failure. -/

inductive ResolveResult where
  | ok (hostname : String) (aliases : List String) (ips : List String)
  | err (msg : String)
deriving DecidableEq, Repr

abbrev DnsOracle := Except String (String × List String × List String)

def resolve (target : String) (dns : DnsOracle) : ResolveResult :=
  if looks_like_ip target then ResolveResult.ok target [] [target]
  else
    match dns with
    | Except.ok (h, al, ips) => ResolveResult.ok h al ips
    | Except.error e => ResolveResult.err ("DNS resolution failed: " ++ e)

/-! ## `scan` (lines 147-166)

The per-pair probe outcomes are an oracle indexed by (ip, port).  The
wall-clock `scanned_at` timestamp is outside the model; every other field of
the report dictionary is here. -/

structure ScanReport where
  target : String
  dns : ResolveResult
  entries : List BannerResult
  note : Option String
deriving DecidableEq, Repr

def scan (target : String) (ports : List Int) (dns : DnsOracle)
    (probe : String → Int → ProbeEnv) : ScanReport :=
  let resolved := resolve target dns
  let ipList :=
    match resolved with
    | ResolveResult.ok _ _ ips => if ips.isEmpty then [] else ips
    | ResolveResult.err _ => if looks_like_ip target then [target] else []
  if ipList.isEmpty then
    { target := target, dns := resolved, entries := [], note := some "no-resolvable-ip" }
  else
    { target := target, dns := resolved,
      entries := ipList.flatMap (fun ip => ports.map (fun p => grab_banner ip p (probe ip p))),
      note := none }

/-! ## The CrawlEye BFS loop (`tools/crawleye.py`, lines 30-44 and 90-119)

The `requests.get` + `BeautifulSoup` + `urljoin` pipeline of one page fetch
is an oracle: `none` for a request exception, otherwise the status code and
the list of absolute URLs (`urljoin(current, a["href"])` outputs) of the
page's anchors, in document order.  `urlparse` is modelled on absolute URLs.
The three best-effort pre-phases (robots, sitemap, sensitive paths) touch
only their own result lists, never the BFS state, and are omitted. -/

structure UrlParts where
  scheme : String
  netloc : String
  path : String
  query : String
deriving DecidableEq, Repr

/-- Split at the first `"://"`. -/
def splitScheme : List Char → Option (List Char × List Char)
  | [] => none
  | ':' :: '/' :: '/' :: rest => some ([], rest)
  | c :: rest => (splitScheme rest).map (fun p => (c :: p.1, p.2))

def schemeOkChars (l : List Char) : Bool :=
  match l with
  | [] => false
  | c :: rest => c.isAlpha && rest.all (fun ch => ch.isAlphanum || ch = '+' || ch = '-' || ch = '.')

def urlparseAbs (u : String) : UrlParts :=
  match splitScheme u.toList with
  | some (sch, rest) =>
    if schemeOkChars sch then
      let netloc := rest.takeWhile (fun c => ¬(c = '/' ∨ c = '?' ∨ c = '#'))
      let tail := rest.dropWhile (fun c => ¬(c = '/' ∨ c = '?' ∨ c = '#'))
      let path := tail.takeWhile (fun c => ¬(c = '?' ∨ c = '#'))
      let rest2 := tail.dropWhile (fun c => ¬(c = '?' ∨ c = '#'))
      let query :=
        match rest2 with
        | '?' :: q => q.takeWhile (fun c => c ≠ '#')
        | _ => []
      ⟨String.mk (sch.map Char.toLower), String.mk netloc, String.mk path, String.mk query⟩
    else
      ⟨"", "", String.mk (u.toList.takeWhile (fun c => c ≠ '?')), ""⟩
  | none =>
    ⟨"", "", String.mk (u.toList.takeWhile (fun c => c ≠ '?')), ""⟩

/-- `f"{parsed.scheme}://{parsed.netloc}{parsed.path}"` (line 117). -/
def cleanUrl (p : UrlParts) : String := p.scheme ++ "://" ++ p.netloc ++ p.path

/-- `str.startswith`, on character lists (first argument the candidate
prefix). -/
def startsWithL : List Char → List Char → Bool
  | [], _ => true
  | _ :: _, [] => false
  | p :: ps, c :: cs => p = c && startsWithL ps cs

/-- `CrawlEye.__init__` base-URL normalisation (lines 31-34). -/
def mkBaseUrl (base_url : String) : String :=
  let b := if startsWithL "http".toList base_url.toList then base_url
           else "http://" ++ base_url
  String.mk (b.toList.reverse.dropWhile (fun c => c = '/')).reverse

def crawlDomain (base : String) : String := (urlparseAbs base).netloc

structure CrawlSt where
  visited : List String
  queue : List String
  discovered : List String
deriving DecidableEq, Repr

/-- The anchor loop of `crawl` (lines 112-119): resolve, keep same-netloc
targets, strip query and fragment, append to the queue unless already
visited. -/
def enqueueLinks (domain : String) (visited : List String) (links : List String)
    (queue : List String) : List String :=
  links.foldl (fun q url =>
    let parsed := urlparseAbs url
    if parsed.netloc = domain then
      let clean := cleanUrl parsed
      if ¬ visited.contains clean then q ++ [clean] else q
    else q) queue

/-- The BFS loop of `crawl` (lines 95-119), fuel-indexed: each constructor
step is one `while` iteration.  Enough fuel makes the result the loop's
final state; every property proved below holds for every fuel value. -/
def crawlBFS (fetch : String → Option (Nat × List String)) (domain : String)
    (maxPages : Nat) : Nat → CrawlSt → CrawlSt
  | 0, st => st
  | fuel + 1, st =>
    match st.queue with
    | [] => st
    | current :: rest =>
      if ¬ st.visited.length < maxPages then st
      else if st.visited.contains current then
        crawlBFS fetch domain maxPages fuel { st with queue := rest }
      else
        match fetch current with
        | none => crawlBFS fetch domain maxPages fuel { st with queue := rest }
        | some (status, links) =>
          if status ≠ 200 then crawlBFS fetch domain maxPages fuel { st with queue := rest }
          else
            let visited' := st.visited ++ [current]
            let discovered' :=
              if st.discovered.contains current then st.discovered
              else st.discovered ++ [current]
            crawlBFS fetch domain maxPages fuel
              { visited := visited',
                queue := enqueueLinks domain visited' links rest,
                discovered := discovered' }

/-- Initial BFS state of a `CrawlEye` instance (lines 38-39). -/
def crawlInit (base : String) : CrawlSt := ⟨[], [base], []⟩

/-- Modelled from the spec: the *origin* of a URL in the web sense used by
§4.6/§8 ("same-origin", "scheme+host"), i.e. the scheme together with the
network location. -/
def originOf (u : String) : String × String :=
  ((urlparseAbs u).scheme, (urlparseAbs u).netloc)

/-! ## Specification-side predicates used by the theorems -/

/-- A raw port value survives sanitisation iff it converts to an integer in
bounds. -/
def rawValid (p : Option Int) : Prop := ∃ i, p = some i ∧ 1 ≤ i ∧ i ≤ 65535

/-- A canonical decimal part of a dotted-quad literal: non-empty, digits
only, no redundant leading zero. -/
def canonicalDecPart (p : List Char) : Prop :=
  p ≠ [] ∧ (∀ c ∈ p, isDigitChar c) ∧ (p.head? = some '0' → p = ['0'])

instance : DecidablePred canonicalDecPart := fun p => by
  unfold canonicalDecPart
  infer_instance

/-- A literal IPv4 address: four canonical decimal parts, each at most 255,
joined by dots. -/
def IsIPv4Literal (s : String) : Prop :=
  ∃ p1 p2 p3 p4 : List Char,
    canonicalDecPart p1 ∧ canonicalDecPart p2 ∧ canonicalDecPart p3 ∧ canonicalDecPart p4 ∧
    decVal p1 ≤ 255 ∧ decVal p2 ≤ 255 ∧ decVal p3 ≤ 255 ∧ decVal p4 ≤ 255 ∧
    s.toList = p1 ++ '.' :: (p2 ++ '.' :: (p3 ++ '.' :: p4))

/-- Segment `i` of a release tuple, missing segments reading as zero. -/
def segAt (l : List Nat) (i : Nat) : Nat := l.getD i 0

/-- Segment-wise equality of versions. -/
def semEq (a b : List Nat) : Prop := ∀ i, segAt a i = segAt b i

/-- Segment-wise strict order: some segment is smaller and all earlier
segments agree. -/
def semLt (a b : List Nat) : Prop :=
  ∃ i, segAt a i < segAt b i ∧ ∀ j, j < i → segAt a j = segAt b j

def semLe (a b : List Nat) : Prop := semLt a b ∨ semEq a b

/-- A rule matches a (stripped) banner when its pattern search succeeds. -/
def ruleMatches (r : Rule) (bc : List Char) : Prop := searchAt r.patt bc ≠ none

instance (r : Rule) (bc : List Char) : Decidable (ruleMatches r bc) := by
  unfold ruleMatches
  infer_instance

/-- A URL of the shape the anchor loop enqueues: the query-stripped clean
form of some link whose network location is the crawl domain. -/
def HostOk (domain : String) (u : String) : Prop :=
  ∃ link : String, (urlparseAbs link).netloc = domain ∧ u = cleanUrl (urlparseAbs link)

/-! # Theorems -/

/-! ## C7: the OpenSSH end-to-end scenario -/

/-- C7: fingerprinting the banner text "OpenSSH_7.4" returns product
"OpenSSH", normalised version "7.4" and risk "potentially_outdated" (the
OpenSSH rule's threshold is "7.6"); fingerprinting "OpenSSH_9.0" returns
risk "ok". -/
theorem c7_fingerprint_openssh_scenario :
    fingerprint "OpenSSH_7.4" = (some "OpenSSH", some "7.4", "potentially_outdated") ∧
    fingerprint "OpenSSH_9.0" = (some "OpenSSH", some "9.0", "ok") ∧
    (FINGERPRINTS.get? 2).map Rule.threshold = some (some "7.6") := by
  refine ⟨by decide, by decide, by decide⟩

/-! ## C6 / C10: banner-grab success and error fields -/

lemma grab_err_eq (ip : String) (port : Int) (env : ProbeEnv) (e : String)
    (h : env.connect = Except.error e) :
    grab_banner ip port env = ⟨ip, port, false, "", none, none, "unknown", some e⟩ := by
  simp only [grab_banner, h]

lemma grab_ok_success (ip : String) (port : Int) (env : ProbeEnv)
    (h : env.connect = Except.ok ()) : (grab_banner ip port env).success = true := by
  simp only [grab_banner, h, apply_ite BannerResult.success]
  simp

lemma grab_ok_error (ip : String) (port : Int) (env : ProbeEnv)
    (h : env.connect = Except.ok ()) : (grab_banner ip port env).error = none := by
  simp only [grab_banner, h, apply_ite BannerResult.error]
  simp

/-- C6: for every (IP, port) probe, the banner grab's `success` is `true`
exactly when the TCP connect succeeds, whatever the read outcomes (an empty
banner with `success = true` is a valid outcome); on a connect failure the
result is exactly the initial record with the error text filled in — no
retry, no dependence on the read oracles — and the probe is a total
function, so no exception escapes it. -/
theorem c6_grab_banner_success_iff_connect :
    ∀ (ip : String) (port : Int) (env : ProbeEnv),
      ((grab_banner ip port env).success = true ↔ env.connect = Except.ok ()) ∧
      (∀ e, env.connect = Except.error e →
        grab_banner ip port env =
          ⟨ip, port, false, "", none, none, "unknown", some e⟩) := by
  intro ip port env
  refine ⟨⟨fun h => ?_, fun h => grab_ok_success ip port env h⟩,
    fun e he => grab_err_eq ip port env e he⟩
  cases hc : env.connect with
  | error e =>
    rw [grab_err_eq ip port env e hc] at h
    simp at h
  | ok u => cases u; rfl

/-- C10: for every (IP, port) probe, the result's `error` field is non-null
exactly when `success` is false: a successful connection leaves `error` as
`none`, and a failed connection records the exception text. -/
theorem c10_grab_banner_error_iff_failure :
    ∀ (ip : String) (port : Int) (env : ProbeEnv),
      ((grab_banner ip port env).error ≠ none ↔ (grab_banner ip port env).success = false) ∧
      (∀ e, env.connect = Except.error e → (grab_banner ip port env).error = some e) ∧
      (env.connect = Except.ok () → (grab_banner ip port env).error = none) := by
  intro ip port env
  refine ⟨⟨fun h => ?_, fun h => ?_⟩,
    fun e he => by rw [grab_err_eq ip port env e he],
    fun h => grab_ok_error ip port env h⟩
  · cases hc : env.connect with
    | error e => rw [grab_err_eq ip port env e hc]
    | ok u =>
      cases u
      exact absurd (grab_ok_error ip port env hc) h
  · cases hc : env.connect with
    | error e => rw [grab_err_eq ip port env e hc]; simp
    | ok u =>
      cases u
      rw [grab_ok_success ip port env hc] at h
      simp at h

/-- Closed witness for C6: a refused connection yields `success = false` with
the error text; an accepted connection with no banner text at all yields
`success = true`. -/
theorem c6_witness :
    grab_banner "192.0.2.1" 22 ⟨Except.error "refused", Except.ok "x", Except.ok "y"⟩ =
      ⟨"192.0.2.1", 22, false, "", none, none, "unknown", some "refused"⟩ ∧
    (grab_banner "192.0.2.1" 80 ⟨Except.ok (), Except.error "timed out", Except.ok ""⟩).success = true := by
  constructor
  · exact (c6_grab_banner_success_iff_connect "192.0.2.1" 22
      ⟨Except.error "refused", Except.ok "x", Except.ok "y"⟩).2 "refused" rfl
  · exact (c6_grab_banner_success_iff_connect "192.0.2.1" 80
      ⟨Except.ok (), Except.error "timed out", Except.ok ""⟩).1.mpr rfl

/-- Closed witness for C10: the error/success dichotomy evaluated on one
failing and one succeeding probe. -/
theorem c10_witness :
    (grab_banner "10.0.0.1" 21 ⟨Except.error "unreachable", Except.ok "", Except.ok ""⟩).error = some "unreachable" ∧
    (grab_banner "10.0.0.1" 21 ⟨Except.ok (), Except.ok "220 hello", Except.ok ""⟩).error = none := by
  constructor
  · exact (c10_grab_banner_error_iff_failure "10.0.0.1" 21
      ⟨Except.error "unreachable", Except.ok "", Except.ok ""⟩).2.1 "unreachable" rfl
  · exact (c10_grab_banner_error_iff_failure "10.0.0.1" 21
      ⟨Except.ok (), Except.ok "220 hello", Except.ok ""⟩).2.2 rfl

/-! ## C2: the port sanitizer -/


lemma cleanLoop_length (l : List (Option Int)) :
    ∀ acc : List Int, acc.length < MAX_PORTS → (cleanLoop l acc).length ≤ MAX_PORTS := by
  induction l with
  | nil => intro acc h; exact Nat.le_of_lt h
  | cons p rest ih =>
    intro acc h
    cases p with
    | none => exact ih acc h
    | some pi =>
      by_cases hb : 1 ≤ pi ∧ pi ≤ 65535
      · simp only [cleanLoop, if_pos hb]
        by_cases hfull : MAX_PORTS ≤ (acc ++ [pi]).length
        · rw [if_pos hfull]
          simp only [List.length_append, List.length_singleton]
          omega
        · rw [if_neg hfull]
          exact ih _ (Nat.lt_of_not_le hfull)
      · simp only [cleanLoop, if_neg hb]
        by_cases hfull : MAX_PORTS ≤ acc.length
        · exact absurd hfull (by omega)
        · rw [if_neg hfull]
          exact ih _ h

lemma cleanLoop_mem (l : List (Option Int)) :
    ∀ acc : List Int, (∀ x ∈ acc, 1 ≤ x ∧ x ≤ 65535) →
      ∀ x ∈ cleanLoop l acc, 1 ≤ x ∧ x ≤ 65535 := by
  induction l with
  | nil => intro acc h; exact h
  | cons p rest ih =>
    intro acc h
    cases p with
    | none => exact ih acc h
    | some pi =>
      by_cases hb : 1 ≤ pi ∧ pi ≤ 65535
      · have hacc' : ∀ x ∈ acc ++ [pi], 1 ≤ x ∧ x ≤ 65535 := by
          intro x hx
          rcases List.mem_append.mp hx with hx | hx
          · exact h x hx
          · rcases List.mem_singleton.mp hx with rfl
            exact hb
        simp only [cleanLoop, if_pos hb]
        split
        · exact hacc'
        · exact ih _ hacc'
      · simp only [cleanLoop, if_neg hb]
        split
        · exact h
        · exact ih _ h

lemma cleanLoop_all_invalid (l : List (Option Int)) :
    ∀ acc : List Int, (∀ p ∈ l, ¬ rawValid p) → cleanLoop l acc = acc := by
  induction l with
  | nil => intro acc _; rfl
  | cons p rest ih =>
    intro acc h
    cases p with
    | none => exact ih acc (fun q hq => h q (List.mem_cons_of_mem _ hq))
    | some pi =>
      have hpi : ¬ (1 ≤ pi ∧ pi ≤ 65535) := by
        intro hb
        exact h (some pi) (List.mem_cons_self _ _) ⟨pi, rfl, hb⟩
      simp only [cleanLoop, if_neg hpi]
      split
      · rfl
      · exact ih acc (fun q hq => h q (List.mem_cons_of_mem _ hq))

/-- C2: for every input, the sanitiser's output has length at most 20 and
every element in [1, 65535]; values failing integer conversion or out of
bounds are discarded; absent input, and input whose every element is
invalid, yield exactly the fixed default list.  The sanitiser is a total
function — it never fails. -/
theorem c2_sanitize_ports_spec :
    ∀ pl : Option (List (Option Int)),
      (sanitize_ports pl).length ≤ MAX_PORTS ∧
      (∀ x ∈ sanitize_ports pl, 1 ≤ x ∧ x ≤ 65535) ∧
      sanitize_ports none = DEFAULT_PORTS ∧
      (∀ l, pl = some l → (∀ p ∈ l, ¬ rawValid p) → sanitize_ports pl = DEFAULT_PORTS) := by
  have hdef_len : DEFAULT_PORTS.length ≤ MAX_PORTS := by decide
  have hdef_mem : ∀ x ∈ DEFAULT_PORTS, 1 ≤ x ∧ x ≤ 65535 := by decide
  intro pl
  refine ⟨?_, ?_, rfl, ?_⟩
  · match pl with
    | none => exact hdef_len
    | some [] => exact hdef_len
    | some (p :: rest) =>
      simp only [sanitize_ports]
      split
      · exact hdef_len
      · exact cleanLoop_length (p :: rest) [] (by decide)
  · match pl with
    | none => exact hdef_mem
    | some [] => exact hdef_mem
    | some (p :: rest) =>
      simp only [sanitize_ports]
      split
      · exact hdef_mem
      · exact cleanLoop_mem (p :: rest) [] (by simp)
  · rintro l rfl hall
    match l, hall with
    | [], _ => rfl
    | p :: rest, hall =>
      have hempty : cleanLoop (p :: rest) [] = [] := cleanLoop_all_invalid (p :: rest) [] hall
      simp [sanitize_ports, hempty]

/-- Closed witness for C2: a mixed input (one valid port, one conversion
failure, one out-of-range value), an all-invalid input, and the absent
input, evaluated concretely. -/
theorem c2_witness :
    (sanitize_ports (some [some 8080, none, some 99999])).length ≤ MAX_PORTS ∧
    (∀ x ∈ sanitize_ports (some [some 8080, none, some 99999]), 1 ≤ x ∧ x ≤ 65535) ∧
    sanitize_ports (some [none, some 0, some 70000]) = DEFAULT_PORTS := by
  refine ⟨(c2_sanitize_ports_spec (some [some 8080, none, some 99999])).1,
    (c2_sanitize_ports_spec (some [some 8080, none, some 99999])).2.1,
    (c2_sanitize_ports_spec (some [none, some 0, some 70000])).2.2.2
      [none, some 0, some 70000] rfl ?_⟩
  intro p hp
  rintro ⟨i, rfl, h1, h2⟩
  simp at hp
  rcases hp with hp | hp <;> omega

/-! ## C3: the scan report's entries invariant -/

lemma flatMap_probe_length (ips : List String) (ports : List Int)
    (f : String → Int → BannerResult) :
    (ips.flatMap (fun ip => ports.map (f ip))).length = ips.length * ports.length := by
  induction ips with
  | nil => simp
  | cons ip rest ih =>
    simp only [List.flatMap_cons, List.length_append, List.length_map, ih,
      List.length_cons]
    ring

/-- C3: whenever resolution succeeds, the report's entries list is exactly
one probe result per (IP, port) pair — IP order from resolution crossed with
port order from sanitisation, whatever each probe returns (so no per-probe
failure removes or prevents an entry) — hence has length
`|ips| * |ports|`; when resolution yields no addresses — a success with an
empty address list, or a resolution failure, which always degrades to zero
addresses because a literal target never reaches the error branch — the
entries list is empty and the report is annotated "no-resolvable-ip". -/
theorem c3_scan_entries_product :
    ∀ (target : String) (ports : List Int) (dns : DnsOracle)
      (probe : String → Int → ProbeEnv),
      (∀ (h : String) (al ips : List String),
        resolve target dns = ResolveResult.ok h al ips →
        (scan target ports dns probe).entries.length = ips.length * ports.length ∧
        (ips ≠ [] →
          (scan target ports dns probe).entries =
            ips.flatMap (fun ip => ports.map (fun p => grab_banner ip p (probe ip p)))) ∧
        (ips = [] →
          (scan target ports dns probe).entries = [] ∧
          (scan target ports dns probe).note = some "no-resolvable-ip")) ∧
      (∀ msg : String,
        resolve target dns = ResolveResult.err msg →
        (scan target ports dns probe).entries = [] ∧
        (scan target ports dns probe).note = some "no-resolvable-ip") := by
  intro target ports dns probe
  constructor
  · intro h al ips hres
    match hips : ips with
    | [] =>
      have hscan : scan target ports dns probe =
          { target := target, dns := resolve target dns, entries := [],
            note := some "no-resolvable-ip" } := by
        simp only [scan, hres]
        rfl
      rw [hscan]
      exact ⟨by simp, fun hne => absurd rfl hne, fun _ => ⟨rfl, rfl⟩⟩
    | ip0 :: rest =>
      have hscan : scan target ports dns probe =
          { target := target, dns := resolve target dns,
            entries := (ip0 :: rest).flatMap
              (fun ip => ports.map (fun p => grab_banner ip p (probe ip p))),
            note := none } := by
        simp only [scan, hres]
        rfl
      rw [hscan]
      refine ⟨flatMap_probe_length _ _ _, fun _ => rfl, fun hemp => List.noConfusion hemp⟩
  · intro msg herr
    have hnot : looks_like_ip target = false := by
      by_cases hl : looks_like_ip target = true
      · simp [resolve, hl] at herr
      · simpa using hl
    have hscan : scan target ports dns probe =
        { target := target, dns := resolve target dns, entries := [],
          note := some "no-resolvable-ip" } := by
      simp only [scan, herr, hnot]
      rfl
    rw [hscan]
    exact ⟨rfl, rfl⟩

/-- Closed witness for C3: a two-address resolution with two ports yields a
report of exactly four entries in resolution × port order; a failing
resolution of a non-literal target yields an empty, annotated report. -/
theorem c3_witness :
    (scan "db.internal" [3306, 5432]
        (Except.ok ("db.internal", [], ["10.0.0.5", "10.0.0.6"]))
        (fun _ _ => ⟨Except.error "timed out", Except.ok "", Except.ok ""⟩)).entries.length
      = 2 * 2 ∧
    (scan "db.internal" [3306, 5432]
        (Except.ok ("db.internal", [], ["10.0.0.5", "10.0.0.6"]))
        (fun _ _ => ⟨Except.error "timed out", Except.ok "", Except.ok ""⟩)).entries =
      ["10.0.0.5", "10.0.0.6"].flatMap
        (fun ip => [(3306 : Int), 5432].map
          (fun p => grab_banner ip p ⟨Except.error "timed out", Except.ok "", Except.ok ""⟩)) ∧
    (scan "nohost.example" [80] (Except.error "NXDOMAIN")
        (fun _ _ => ⟨Except.error "timed out", Except.ok "", Except.ok ""⟩)).entries = [] ∧
    (scan "nohost.example" [80] (Except.error "NXDOMAIN")
        (fun _ _ => ⟨Except.error "timed out", Except.ok "", Except.ok ""⟩)).note =
      some "no-resolvable-ip" := by
  have h := (c3_scan_entries_product "db.internal" [3306, 5432]
    (Except.ok ("db.internal", [], ["10.0.0.5", "10.0.0.6"]))
    (fun _ _ => ⟨Except.error "timed out", Except.ok "", Except.ok ""⟩)).1
    "db.internal" [] ["10.0.0.5", "10.0.0.6"] (by decide)
  have herr := (c3_scan_entries_product "nohost.example" [80] (Except.error "NXDOMAIN")
    (fun _ _ => ⟨Except.error "timed out", Except.ok "", Except.ok ""⟩)).2
    "DNS resolution failed: NXDOMAIN" (by decide)
  exact ⟨h.1, h.2.1 (by decide), herr.1, herr.2⟩

/-! ## C9: the empty target string -/

/-- C9: an empty target is not rejected by the code: `BannerHunter.__init__`
merely strips it and `scan` proceeds through resolution and returns an
ordinary degraded report (here with a failing DNS oracle: the
"no-resolvable-ip" annotation) instead of raising a contract violation at
the boundary; every failure mode inside the core is caught and recorded. -/
theorem c9_scan_empty_target_returns_report :
    scan "" DEFAULT_PORTS (Except.error "nope")
        (fun _ _ => ⟨Except.error "timed out", Except.ok "", Except.ok ""⟩) =
      { target := "", dns := ResolveResult.err "DNS resolution failed: nope",
        entries := [], note := some "no-resolvable-ip" } := by
  decide

/-! ## C5: IP literals short-circuit resolution -/


lemma takeNum_digits (base : Nat) (dv : Char → Option Nat) :
    ∀ (p r : List Char) (acc : Nat),
      (∀ c ∈ p, dv c = some (digitVal c)) →
      (∀ c, r.head? = some c → dv c = none) →
      takeNum base dv (p ++ r) acc =
        (p.foldl (fun a c => base * a + digitVal c) acc, r) := by
  intro p
  induction p with
  | nil =>
    intro r acc _ hr
    cases r with
    | nil => rfl
    | cons c rest => simp [takeNum, hr c rfl]
  | cons c cs ih =>
    intro r acc hp hr
    have hc : dv c = some (digitVal c) := hp c (List.mem_cons_self c cs)
    simp only [List.cons_append, takeNum, hc, List.foldl_cons]
    exact ih r _ (fun d hd => hp d (List.mem_cons_of_mem c hd)) hr

lemma parseCNum_canonical (p r : List Char) (hp : canonicalDecPart p)
    (hr : r = [] ∨ ∃ t, r = '.' :: t) :
    parseCNum (p ++ r) = (decVal p, r) := by
  obtain ⟨hne, hdig, hzero⟩ := hp
  cases p with
  | nil => exact absurd rfl hne
  | cons c cs =>
    by_cases hc0 : c = '0'
    · subst hc0
      have hcs : cs = [] := by
        have := hzero rfl
        injection this
      subst hcs
      rcases hr with rfl | ⟨t, rfl⟩
      · decide
      · show parseCNum ('0' :: '.' :: t) = (decVal ['0'], '.' :: t)
        have h1 : ¬('.' = 'x' ∨ '.' = 'X') := by decide
        have h2 : octDigitVal '.' = none := by decide
        simp [parseCNum, if_neg h1, takeNum, h2, decVal, digitVal]
    · have hstep : parseCNum ((c :: cs) ++ r) = takeNum 10 decDigitVal ((c :: cs) ++ r) 0 := by
        simp only [List.cons_append]
        unfold parseCNum
        split
        · rename_i heq
          injection heq with h1 _
          exact absurd h1 hc0
        · rfl
      have hrhead : ∀ d, r.head? = some d → decDigitVal d = none := by
        intro d hd
        rcases hr with rfl | ⟨t, rfl⟩
        · simp at hd
        · simp only [List.head?_cons] at hd
          injection hd with hd
          subst hd
          decide
      rw [hstep, takeNum_digits 10 decDigitVal (c :: cs) r 0
        (fun d hd => by simp [decDigitVal, hdig d hd]) hrhead]
      rfl

lemma lastPartMax_ge (n : Nat) : 255 ≤ lastPartMax n := by
  unfold lastPartMax
  split <;> omega

lemma canonical_head_digit {p : List Char} (hp : canonicalDecPart p) :
    ∃ c cs, p = c :: cs ∧ isDigitChar c = true := by
  obtain ⟨hne, hdig, _⟩ := hp
  cases p with
  | nil => exact absurd rfl hne
  | cons c cs => exact ⟨c, cs, rfl, hdig c (List.mem_cons_self c cs)⟩

lemma atonGo_step (k : Nat) (p rest : List Char) (hp : canonicalDecPart p)
    (hv : decVal p ≤ 255) (hk : k ≠ 0) :
    atonGo (k + 1) (p ++ '.' :: rest) = atonGo k rest := by
  obtain ⟨c, cs, rfl, hd⟩ := canonical_head_digit hp
  have hparse : parseCNum ((c :: cs) ++ '.' :: rest) = (decVal (c :: cs), '.' :: rest) :=
    parseCNum_canonical (c :: cs) ('.' :: rest) hp (Or.inr ⟨rest, rfl⟩)
  simp only [List.cons_append] at hparse ⊢
  simp only [atonGo, hd, hparse]
  have h1 : ¬(0xffffffff < decVal (c :: cs)) := by omega
  have h2 : ¬(k = 0 ∨ 0xff < decVal (c :: cs)) := by
    rintro (h | h) <;> omega
  simp [h1, h2]

lemma atonGo_last (k : Nat) (p : List Char) (hp : canonicalDecPart p)
    (hv : decVal p ≤ 255) :
    atonGo (k + 1) p = true := by
  obtain ⟨c, cs, rfl, hd⟩ := canonical_head_digit hp
  have hparse : parseCNum ((c :: cs) ++ []) = (decVal (c :: cs), []) :=
    parseCNum_canonical (c :: cs) [] hp (Or.inl rfl)
  rw [List.append_nil] at hparse
  simp only [atonGo, hd, hparse]
  have h1 : ¬(0xffffffff < decVal (c :: cs)) := by omega
  have h2 : decVal (c :: cs) ≤ lastPartMax (k + 1) :=
    le_trans hv (lastPartMax_ge (k + 1))
  simp [h1, h2]

lemma looks_like_ip_of_literal (s : String) (h : IsIPv4Literal s) :
    looks_like_ip s = true := by
  obtain ⟨p1, p2, p3, p4, h1, h2, h3, h4, v1, v2, v3, v4, heq⟩ := h
  show inet_aton s.toList = true
  rw [heq]
  unfold inet_aton
  rw [show (4 : Nat) = 3 + 1 from rfl, atonGo_step 3 p1 _ h1 v1 (by omega)]
  rw [show (3 : Nat) = 2 + 1 from rfl, atonGo_step 2 p2 _ h2 v2 (by omega)]
  rw [show (2 : Nat) = 1 + 1 from rfl, atonGo_step 1 p3 _ h3 v3 (by omega)]
  exact atonGo_last 0 p4 h4 v4

/-- C5: a target string that is a literal IPv4 address short-circuits
resolution — the resolver returns exactly that IP as the single resolved
address with no aliases, for *every* DNS oracle (so no network lookup can
influence the result); a non-literal target whose DNS lookup fails yields an
error result carrying the reason text instead of an exception. -/
theorem c5_resolve_ip_literal :
    (∀ (s : String) (dns : DnsOracle), IsIPv4Literal s →
      resolve s dns = ResolveResult.ok s [] [s]) ∧
    (∀ s e : String, looks_like_ip s = false →
      resolve s (Except.error e) =
        ResolveResult.err ("DNS resolution failed: " ++ e)) := by
  constructor
  · intro s dns hlit
    simp [resolve, looks_like_ip_of_literal s hlit]
  · intro s e hnot
    simp [resolve, hnot]

/-- Closed witness for C5: "192.0.2.1" is a literal and resolves to itself
under a DNS oracle that would report something else entirely; "db.internal"
is not a literal and a failing lookup produces the error result. -/
theorem c5_witness :
    resolve "192.0.2.1" (Except.ok ("bogus", ["alias"], ["9.9.9.9"])) =
      ResolveResult.ok "192.0.2.1" [] ["192.0.2.1"] ∧
    resolve "db.internal" (Except.error "Name or service not known") =
      ResolveResult.err ("DNS resolution failed: Name or service not known") := by
  constructor
  · exact (c5_resolve_ip_literal.1 "192.0.2.1" (Except.ok ("bogus", ["alias"], ["9.9.9.9"]))
      ⟨['1','9','2'], ['0'], ['2'], ['1'], by decide, by decide, by decide, by decide,
        by decide, by decide, by decide, by decide, by decide⟩)
  · exact c5_resolve_ip_literal.2 "db.internal" "Name or service not known" (by decide)

/-! ## C1: risk classification is semantic, segment-wise -/


lemma segAt_nil (i : Nat) : segAt [] i = 0 := by simp [segAt]

lemma segAt_cons_zero (x : Nat) (xs : List Nat) : segAt (x :: xs) 0 = x := rfl

lemma segAt_cons_succ (x : Nat) (xs : List Nat) (i : Nat) :
    segAt (x :: xs) (i + 1) = segAt xs i := rfl

lemma all_zero_iff (b : List Nat) :
    b.all (fun y => y = 0) = true ↔ ∀ i, segAt b i = 0 := by
  induction b with
  | nil => simp [segAt_nil]
  | cons y ys ih =>
    simp only [List.all_cons, Bool.and_eq_true, decide_eq_true_eq, ih]
    constructor
    · rintro ⟨hy, hys⟩ i
      cases i with
      | zero => exact hy
      | succ k => exact hys k
    · intro h
      exact ⟨h 0, fun k => h (k + 1)⟩

lemma semLt_nil_of_not_all_zero (b : List Nat)
    (h : b.all (fun y => y = 0) = false) : semLt [] b := by
  induction b with
  | nil => simp at h
  | cons y ys ih =>
    by_cases hy : y = 0
    · have hys : ys.all (fun y => y = 0) = false := by
        simpa [List.all_cons, hy] using h
      obtain ⟨i, hi, hj⟩ := ih hys
      refine ⟨i + 1, by simpa [segAt_nil, segAt_cons_succ] using hi, ?_⟩
      intro j hj'
      cases j with
      | zero => simp [segAt_nil, segAt_cons_zero, hy]
      | succ k =>
        have := hj k (by omega)
        simpa [segAt_nil, segAt_cons_succ] using this
    · exact ⟨0, by simpa [segAt_nil, segAt_cons_zero] using Nat.pos_of_ne_zero hy,
        fun j hj => absurd hj (Nat.not_lt_zero j)⟩

lemma semLt_nil_right (a : List Nat) : ¬ semLt a [] := by
  rintro ⟨i, hi, _⟩
  rw [segAt_nil] at hi
  exact Nat.not_lt_zero _ hi

lemma semEq_cons_iff (x : Nat) (xs ys : List Nat) :
    semEq (x :: xs) (x :: ys) ↔ semEq xs ys := by
  constructor
  · intro h i
    have := h (i + 1)
    simpa [segAt_cons_succ] using this
  · intro h i
    cases i with
    | zero => rfl
    | succ k => simpa [segAt_cons_succ] using h k

lemma semLt_cons_iff (x : Nat) (xs ys : List Nat) :
    semLt (x :: xs) (x :: ys) ↔ semLt xs ys := by
  constructor
  · rintro ⟨i, hi, hj⟩
    cases i with
    | zero =>
      rw [segAt_cons_zero, segAt_cons_zero] at hi
      exact absurd hi (Nat.lt_irrefl x)
    | succ k =>
      refine ⟨k, by simpa [segAt_cons_succ] using hi, ?_⟩
      intro j hj'
      have := hj (j + 1) (by omega)
      simpa [segAt_cons_succ] using this
  · rintro ⟨i, hi, hj⟩
    refine ⟨i + 1, by simpa [segAt_cons_succ] using hi, ?_⟩
    intro j hj'
    cases j with
    | zero => rfl
    | succ k => simpa [segAt_cons_succ] using hj k (by omega)

lemma semEq_cons_nil (xs : List Nat) : semEq (0 :: xs) [] ↔ semEq xs [] := by
  constructor
  · intro h i
    have := h (i + 1)
    simpa [segAt_cons_succ, segAt_nil] using this
  · intro h i
    cases i with
    | zero => simp [segAt_cons_zero, segAt_nil]
    | succ k => simpa [segAt_cons_succ, segAt_nil] using h k

lemma segCmp_eq_iff : ∀ a b : List Nat, segCmp a b = Ordering.eq ↔ semEq a b := by
  intro a
  induction a with
  | nil =>
    intro b
    by_cases h : b.all (fun y => y = 0) = true
    · simp only [segCmp, if_pos h]
      constructor
      · intro _ i
        rw [segAt_nil, (all_zero_iff b).mp h i]
      · intro _; trivial
    · simp only [segCmp, if_neg h]
      constructor
      · intro hc; exact absurd hc (by decide)
      · intro he
        exfalso
        apply h
        exact (all_zero_iff b).mpr (fun i => ((he i).symm.trans (segAt_nil i)))
  | cons x xs ih =>
    intro b
    cases b with
    | nil =>
      by_cases hx : x = 0
      · subst hx
        simp only [segCmp, eq_self_iff_true, if_true]
        rw [ih [], semEq_cons_nil]
      · simp only [segCmp, if_neg hx]
        constructor
        · intro hc; exact absurd hc (by decide)
        · intro he
          have := he 0
          rw [segAt_cons_zero, segAt_nil] at this
          exact absurd this hx
    | cons y ys =>
      by_cases hxy : x < y
      · simp only [segCmp, if_pos hxy]
        constructor
        · intro hc; exact absurd hc (by decide)
        · intro he
          have := he 0
          rw [segAt_cons_zero, segAt_cons_zero] at this
          omega
      · by_cases hyx : y < x
        · simp only [segCmp, if_neg hxy, if_pos hyx]
          constructor
          · intro hc; exact absurd hc (by decide)
          · intro he
            have := he 0
            rw [segAt_cons_zero, segAt_cons_zero] at this
            omega
        · have hx : x = y := by omega
          subst hx
          simp only [segCmp, if_neg hxy, if_neg hyx]
          rw [ih ys, semEq_cons_iff]

lemma segCmp_lt_iff : ∀ a b : List Nat, segCmp a b = Ordering.lt ↔ semLt a b := by
  intro a
  induction a with
  | nil =>
    intro b
    by_cases h : b.all (fun y => y = 0) = true
    · simp only [segCmp, if_pos h]
      constructor
      · intro hc; exact absurd hc (by decide)
      · rintro ⟨i, hi, _⟩
        rw [segAt_nil, (all_zero_iff b).mp h i] at hi
        exact absurd hi (Nat.lt_irrefl 0)
    · simp only [segCmp, if_neg h]
      constructor
      · intro _
        exact semLt_nil_of_not_all_zero b (by simpa using h)
      · intro _; trivial
  | cons x xs ih =>
    intro b
    cases b with
    | nil =>
      by_cases hx : x = 0
      · subst hx
        simp only [segCmp, eq_self_iff_true, if_true]
        rw [ih []]
        constructor
        · intro hlt; exact absurd hlt (semLt_nil_right xs)
        · intro hlt; exact absurd hlt (semLt_nil_right (0 :: xs))
      · simp only [segCmp, if_neg hx]
        constructor
        · intro hc; exact absurd hc (by decide)
        · intro hlt; exact absurd hlt (semLt_nil_right (x :: xs))
    | cons y ys =>
      by_cases hxy : x < y
      · simp only [segCmp, if_pos hxy]
        constructor
        · intro _
          exact ⟨0, by simpa [segAt_cons_zero] using hxy,
            fun j hj => absurd hj (Nat.not_lt_zero j)⟩
        · intro _; trivial
      · by_cases hyx : y < x
        · simp only [segCmp, if_neg hxy, if_pos hyx]
          constructor
          · intro hc; exact absurd hc (by decide)
          · rintro ⟨i, hi, hj⟩
            cases i with
            | zero =>
              rw [segAt_cons_zero, segAt_cons_zero] at hi
              omega
            | succ k =>
              have := hj 0 (by omega)
              rw [segAt_cons_zero, segAt_cons_zero] at this
              omega
        · have hx : x = y := by omega
          subst hx
          simp only [segCmp, if_neg hxy, if_neg hyx]
          rw [ih ys, semLt_cons_iff]

lemma segCmp_ne_gt_iff (a b : List Nat) :
    segCmp a b ≠ Ordering.gt ↔ semLe a b := by
  cases h : segCmp a b with
  | lt =>
    simp only [ne_eq]
    constructor
    · intro _; exact Or.inl ((segCmp_lt_iff a b).mp h)
    · intro _; decide
  | eq =>
    simp only [ne_eq]
    constructor
    · intro _; exact Or.inr ((segCmp_eq_iff a b).mp h)
    · intro _; decide
  | gt =>
    simp only [ne_eq, not_true_eq_false, false_iff]
    rintro (hlt | heq)
    · rw [(segCmp_lt_iff a b).mpr hlt] at h
      exact Ordering.noConfusion h
    · rw [(segCmp_eq_iff a b).mpr heq] at h
      exact Ordering.noConfusion h

lemma fingerprintGo_risk :
    ∀ (rules : List Rule) (bc : List Char) (p : Option String) (ver r : String),
      fingerprintGo rules bc = (p, some ver, r) →
      ∃ rule ∈ rules, r = riskOf ver.toList (rule.threshold.map String.toList) := by
  intro rules
  induction rules with
  | nil =>
    intro bc p ver r h
    simp only [fingerprintGo, Prod.mk.injEq] at h
    exact absurd h.2.1 (by simp)
  | cons rule rest ih =>
    intro bc p ver r h
    simp only [fingerprintGo] at h
    cases hs : searchAt rule.patt bc with
    | none =>
      rw [hs] at h
      obtain ⟨ru, hm, hr⟩ := ih bc p ver r h
      exact ⟨ru, List.mem_cons_of_mem rule hm, hr⟩
    | some cap =>
      rw [hs] at h
      cases cap with
      | none =>
        simp only [applyRule, Prod.mk.injEq] at h
        exact absurd h.2.1 (by simp)
      | some vcap =>
        by_cases hne : vcap ≠ []
        · simp only [applyRule, if_pos hne, Prod.mk.injEq] at h
          obtain ⟨-, hv, hr⟩ := h
          refine ⟨rule, List.mem_cons_self rule rest, ?_⟩
          have hver : ver.toList = normalizeVer vcap := by
            rw [← Option.some_inj.mp hv]
            rfl
          rw [hver, ← hr]
        · simp only [applyRule, if_neg hne, Prod.mk.injEq] at h
          exact absurd h.2.1 (by simp)

/-- C1: risk classification is semantic, not lexicographic: when a matched
rule defines a vulnerability threshold, the normalised version is compared
to the threshold segment-wise — version ≤ threshold gives
"potentially_outdated", version > threshold gives "ok"; a malformed version
string (either side failing to parse) or a missing threshold gives
"unknown"; and every versioned fingerprint result's risk comes from this
comparison against some rule's threshold.  In particular "1.9" > "1.10" is
false: semantically 1.9 ≤ 1.10. -/
theorem c1_risk_semantic :
    (∀ (v t : List Char) (a b : List Nat),
        parseVer v = some a → parseVer t = some b →
        ((riskOf v (some t) = "potentially_outdated" ↔ semLe a b) ∧
         (riskOf v (some t) = "ok" ↔ ¬ semLe a b))) ∧
    (∀ v t : List Char, parseVer v = none ∨ parseVer t = none →
        riskOf v (some t) = "unknown") ∧
    (∀ v : List Char, riskOf v none = "unknown") ∧
    (∀ (banner : String) (p : Option String) (ver r : String),
        fingerprint banner = (p, some ver, r) →
        ∃ rule ∈ FINGERPRINTS, r = riskOf ver.toList (rule.threshold.map String.toList)) ∧
    riskOf "1.9".toList (some "1.10".toList) = "potentially_outdated" ∧
    riskOf "1.10".toList (some "1.9".toList) = "ok" := by
  refine ⟨?_, ?_, fun v => rfl, fun banner p ver r h => fingerprintGo_risk FINGERPRINTS _ p ver r h, by decide, by decide⟩
  · intro v t a b hpa hpb
    simp only [riskOf, hpa, hpb]
    by_cases hg : segCmp a b = Ordering.gt
    · rw [if_neg (by simp [hg])]
      constructor
      · constructor
        · intro hc; exact absurd hc (by decide)
        · intro hle
          exact absurd ((segCmp_ne_gt_iff a b).mpr hle) (by simp [hg])
      · constructor
        · intro _
          intro hle
          exact absurd ((segCmp_ne_gt_iff a b).mpr hle) (by simp [hg])
        · intro _; rfl
    · rw [if_pos hg]
      constructor
      · constructor
        · intro _; exact (segCmp_ne_gt_iff a b).mp hg
        · intro _; rfl
      · constructor
        · intro hc; exact absurd hc (by decide)
        · intro hnle
          exact absurd ((segCmp_ne_gt_iff a b).mp hg) hnle
  · intro v t h
    rcases h with h | h
    · cases hpt : parseVer t with
      | none => simp only [riskOf, h, hpt]
      | some b => simp only [riskOf, h, hpt]
    · cases hpv : parseVer v with
      | none => simp only [riskOf, h, hpv]
      | some a => simp only [riskOf, h, hpv]

/-- Closed witness for C1: the OpenSSH thresholds evaluated through the
semantic comparison — 7.4 ≤ 7.6 is outdated, 9.0 > 7.6 is ok. -/
theorem c1_witness :
    riskOf "7.4".toList (some "7.6".toList) = "potentially_outdated" ∧
    riskOf "9.0".toList (some "7.6".toList) = "ok" := by
  constructor
  · refine (c1_risk_semantic.1 "7.4".toList "7.6".toList [7, 4] [7, 6]
      (by decide) (by decide)).1.mpr (Or.inl ⟨1, by decide, ?_⟩)
    intro j hj
    cases j with
    | zero => rfl
    | succ k => exact absurd hj (by omega)
  · refine (c1_risk_semantic.1 "9.0".toList "7.6".toList [9, 0] [7, 6]
      (by decide) (by decide)).2.mpr ?_
    rintro (⟨i, hi, hj⟩ | heq)
    · cases i with
      | zero => exact absurd hi (by decide)
      | succ k =>
        have h0 := hj 0 (by omega)
        exact absurd h0 (by decide)
    · exact absurd (heq 0) (by decide)

/-! ## C4: first match wins over the ordered rule list -/


lemma fingerprintGo_first :
    ∀ (rules : List Rule) (bc : List Char) (i : Nat) (h : i < rules.length),
      searchAt (rules.get ⟨i, h⟩).patt bc ≠ none →
      (∀ j (hj : j < i), searchAt (rules.get ⟨j, Nat.lt_trans hj h⟩).patt bc = none) →
      ∃ cap, searchAt (rules.get ⟨i, h⟩).patt bc = some cap ∧
        fingerprintGo rules bc = applyRule (rules.get ⟨i, h⟩) cap := by
  intro rules
  induction rules with
  | nil =>
    intro bc i h
    exact absurd h (by simp)
  | cons rule rest ih =>
    intro bc i h hm hearlier
    cases i with
    | zero =>
      cases hs : searchAt rule.patt bc with
      | none => exact absurd hs hm
      | some cap =>
        refine ⟨cap, hs, ?_⟩
        simp only [fingerprintGo, hs]
        rfl
    | succ k =>
      have h0 : searchAt rule.patt bc = none := hearlier 0 (Nat.succ_pos k)
      have hrec := ih bc k (Nat.lt_of_succ_lt_succ h) hm
        (fun j hj => hearlier (j + 1) (Nat.succ_lt_succ hj))
      obtain ⟨cap, hcap, hgo⟩ := hrec
      refine ⟨cap, hcap, ?_⟩
      simp only [fingerprintGo, h0]
      exact hgo

lemma fingerprintGo_nomatch :
    ∀ (rules : List Rule) (bc : List Char),
      (∀ r ∈ rules, searchAt r.patt bc = none) →
      fingerprintGo rules bc = (none, none, "unknown") := by
  intro rules
  induction rules with
  | nil => intro bc _; rfl
  | cons rule rest ih =>
    intro bc h
    have h0 := h rule (List.mem_cons_self rule rest)
    simp only [fingerprintGo, h0]
    exact ih bc (fun r hr => h r (List.mem_cons_of_mem rule hr))

/-- C4: fingerprint matching is first-match-wins over the static ordered
rule list: if rule `i` matches the stripped banner and no earlier rule does,
the result is exactly rule `i` applied to its capture — in particular a
banner matching several rules is classified by the earliest — and if no rule
matches, the result is `(none, none, "unknown")`. -/
theorem c4_first_match_wins :
    (∀ (banner : String) (i : Nat) (h : i < FINGERPRINTS.length),
      ruleMatches (FINGERPRINTS.get ⟨i, h⟩) (pyStripL banner.toList) →
      (∀ j (hj : j < i),
        ¬ ruleMatches (FINGERPRINTS.get ⟨j, Nat.lt_trans hj h⟩) (pyStripL banner.toList)) →
      ∃ cap, searchAt (FINGERPRINTS.get ⟨i, h⟩).patt (pyStripL banner.toList) = some cap ∧
        fingerprint banner = applyRule (FINGERPRINTS.get ⟨i, h⟩) cap) ∧
    (∀ banner : String,
      (∀ r ∈ FINGERPRINTS, ¬ ruleMatches r (pyStripL banner.toList)) →
      fingerprint banner = (none, none, "unknown")) := by
  constructor
  · intro banner i h hm hearlier
    exact fingerprintGo_first FINGERPRINTS (pyStripL banner.toList) i h hm
      (fun j hj => not_not.mp (hearlier j hj))
  · intro banner h
    exact fingerprintGo_nomatch FINGERPRINTS (pyStripL banner.toList)
      (fun r hr => not_not.mp (h r hr))

/-- Closed witness for C4: the constructed ambiguous banner
"Apache/2.4.41 nginx/1.18.0" matches both the Apache rule (index 0) and the
nginx rule (index 1); the result is the Apache rule's. -/
theorem c4_witness :
    ruleMatches (FINGERPRINTS.get ⟨1, by decide⟩)
      (pyStripL "Apache/2.4.41 nginx/1.18.0".toList) ∧
    ∃ cap,
      searchAt (FINGERPRINTS.get ⟨0, by decide⟩).patt
          (pyStripL "Apache/2.4.41 nginx/1.18.0".toList) = some cap ∧
      fingerprint "Apache/2.4.41 nginx/1.18.0" =
        applyRule (FINGERPRINTS.get ⟨0, by decide⟩) cap := by
  constructor
  · decide
  · exact c4_first_match_wins.1 "Apache/2.4.41 nginx/1.18.0" 0 (by decide)
      (by decide) (fun j hj => absurd hj (Nat.not_lt_zero j))

/-! ## C8: the crawl BFS loop -/


lemma enqueueLinks_mem (domain : String) (visited : List String) :
    ∀ (links queue : List String) (u : String),
      u ∈ enqueueLinks domain visited links queue →
      u ∈ queue ∨
        ((∃ link ∈ links, (urlparseAbs link).netloc = domain ∧
            u = cleanUrl (urlparseAbs link)) ∧
          visited.contains u = false) := by
  intro links
  induction links with
  | nil => intro queue u hu; exact Or.inl hu
  | cons l ls ih =>
    intro queue u hu
    simp only [enqueueLinks, List.foldl_cons] at hu
    have hu' := ih _ u (by simpa [enqueueLinks] using hu)
    rcases hu' with hu' | ⟨⟨link, hm, hl⟩, hc⟩
    · by_cases hdom : (urlparseAbs l).netloc = domain
      · rw [if_pos hdom] at hu'
        by_cases hmem : cleanUrl (urlparseAbs l) ∈ visited
        · rw [if_pos hmem] at hu'
          exact Or.inl hu'
        · rw [if_neg hmem] at hu'
          rcases List.mem_append.mp hu' with hq | hnew
          · exact Or.inl hq
          · rcases List.mem_singleton.mp hnew with rfl
            exact Or.inr ⟨⟨l, List.mem_cons_self l ls, hdom, rfl⟩, by simpa using hmem⟩
      · rw [if_neg hdom] at hu'
        exact Or.inl hu'
    · exact Or.inr ⟨⟨link, List.mem_cons_of_mem l hm, hl⟩, hc⟩

lemma crawlBFS_visited_le (fetch : String → Option (Nat × List String))
    (domain : String) (maxPages : Nat) :
    ∀ (fuel : Nat) (st : CrawlSt),
      st.visited.length ≤ maxPages →
      (crawlBFS fetch domain maxPages fuel st).visited.length ≤ maxPages := by
  intro fuel
  induction fuel with
  | zero => intro st h; exact h
  | succ n ih =>
    rintro ⟨v, q, d⟩ h
    cases q with
    | nil => exact h
    | cons current rest =>
      simp only [crawlBFS]
      by_cases hcap : v.length < maxPages
      · rw [if_neg (by simpa using hcap)]
        by_cases hvis : v.contains current
        · rw [if_pos hvis]
          exact ih _ h
        · rw [if_neg hvis]
          rcases hf : fetch current with - | ⟨status, links⟩
          · exact ih _ h
          · dsimp only
            by_cases hst : status ≠ 200
            · rw [if_pos hst]
              exact ih _ h
            · rw [if_neg hst]
              apply ih
              simpa using Nat.succ_le_of_lt hcap
      · rw [if_pos (by simpa using hcap)]
        exact h

lemma crawlBFS_queue_invariant (fetch : String → Option (Nat × List String))
    (domain : String) (maxPages : Nat) :
    ∀ (fuel : Nat) (st : CrawlSt) (u : String),
      u ∈ (crawlBFS fetch domain maxPages fuel st).queue →
      u ∈ st.queue ∨ HostOk domain u := by
  intro fuel
  induction fuel with
  | zero => intro st u hu; exact Or.inl hu
  | succ n ih =>
    rintro ⟨v, q, d⟩ u hu
    cases q with
    | nil => exact Or.inl hu
    | cons current rest =>
      simp only [crawlBFS] at hu
      by_cases hcap : v.length < maxPages
      · rw [if_neg (by simpa using hcap)] at hu
        by_cases hvis : v.contains current
        · rw [if_pos hvis] at hu
          rcases ih _ u hu with hq | hok
          · exact Or.inl (List.mem_cons_of_mem current hq)
          · exact Or.inr hok
        · rw [if_neg hvis] at hu
          rcases hf : fetch current with - | ⟨status, links⟩
          · rw [hf] at hu
            rcases ih _ u hu with hq | hok
            · exact Or.inl (List.mem_cons_of_mem current hq)
            · exact Or.inr hok
          · rw [hf] at hu
            dsimp only at hu
            by_cases hst : status ≠ 200
            · rw [if_pos hst] at hu
              rcases ih _ u hu with hq | hok
              · exact Or.inl (List.mem_cons_of_mem current hq)
              · exact Or.inr hok
            · rw [if_neg hst] at hu
              rcases ih _ u hu with hq | hok
              · rcases enqueueLinks_mem domain _ _ _ u hq with hq' | ⟨⟨link, _, hdom, hcl⟩, _⟩
                · exact Or.inl (List.mem_cons_of_mem current hq')
                · exact Or.inr ⟨link, hdom, hcl⟩
              · exact Or.inr hok
      · rw [if_pos (by simpa using hcap)] at hu
        exact Or.inl hu

/-- C8 (counterexample to the claim as stated): the anchor loop compares
only the network location (`parsed.netloc == self.domain`), never the
scheme, so a link on the same host but a different scheme — a different
*origin* — is enqueued: crawling `http://ex.com` whose page links to
`https://ex.com/a` leaves that cross-origin URL in the queue. -/
theorem c8_counterexample :
    (crawlBFS
        (fun u => if u = "http://ex.com" then some (200, ["https://ex.com/a"]) else none)
        (crawlDomain (mkBaseUrl "http://ex.com")) 50 1
        (crawlInit (mkBaseUrl "http://ex.com"))).queue = ["https://ex.com/a"] ∧
    originOf "https://ex.com/a" ≠ originOf (mkBaseUrl "http://ex.com") := by
  decide


/-- C8 (amended): in every execution of the BFS loop the visited set never
exceeds `max_pages`; every URL the anchor loop enqueues is the
query-stripped `scheme://netloc/path` clean form of a link whose *host*
(netloc — the scheme is not compared) equals the crawl domain, and is not
enqueued when already visited; consequently every queue element of any run
is either an initial queue element or such a clean same-host URL. -/
theorem c8_crawl_bfs_invariants :
    (∀ (fetch : String → Option (Nat × List String)) (domain : String)
        (maxPages fuel : Nat) (st : CrawlSt),
      st.visited.length ≤ maxPages →
      (crawlBFS fetch domain maxPages fuel st).visited.length ≤ maxPages) ∧
    (∀ (domain : String) (visited links queue : List String) (u : String),
      u ∈ enqueueLinks domain visited links queue →
      u ∈ queue ∨
        ((∃ link ∈ links, (urlparseAbs link).netloc = domain ∧
            u = cleanUrl (urlparseAbs link)) ∧
          visited.contains u = false)) ∧
    (∀ (fetch : String → Option (Nat × List String)) (domain : String)
        (maxPages fuel : Nat) (st : CrawlSt) (u : String),
      u ∈ (crawlBFS fetch domain maxPages fuel st).queue →
      u ∈ st.queue ∨ HostOk domain u) := by
  exact ⟨fun fetch domain maxPages fuel st h => crawlBFS_visited_le fetch domain maxPages fuel st h,
    fun domain visited links queue u hu => enqueueLinks_mem domain visited links queue u hu,
    fun fetch domain maxPages fuel st u hu => crawlBFS_queue_invariant fetch domain maxPages fuel st u hu⟩

/-- Closed witness for the amended C8: a crawl capped at one page keeps the
visited set within the cap, and a concrete enqueue of a same-host link with
a query string goes in in clean, query-stripped form, not having been
visited. -/
theorem c8_witness :
    (crawlBFS
        (fun u => if u = "http://ex.com" then some (200, ["http://ex.com/b?q=1"]) else none)
        "ex.com" 1 5 (crawlInit "http://ex.com")).visited.length ≤ 1 ∧
    ("http://ex.com/b" ∈ ([] : List String) ∨
      ((∃ link ∈ ["http://ex.com/b?q=1"], (urlparseAbs link).netloc = "ex.com" ∧
          "http://ex.com/b" = cleanUrl (urlparseAbs link)) ∧
        (["http://ex.com"] : List String).contains "http://ex.com/b" = false)) := by
  constructor
  · exact c8_crawl_bfs_invariants.1
      (fun u => if u = "http://ex.com" then some (200, ["http://ex.com/b?q=1"]) else none)
      "ex.com" 1 5 (crawlInit "http://ex.com") (by decide)
  · exact c8_crawl_bfs_invariants.2.1 "ex.com" ["http://ex.com"]
      ["http://ex.com/b?q=1"] [] "http://ex.com/b" (by decide)

end Cybertoolkit
